import Mathlib

/-!
Shallow embedding of `src/histogram.py`, a Monte-Carlo validation of a
PAC/VC generalization bound for a one-dimensional threshold classifier.

Per-trial arithmetic (draws, ERM threshold, risks) is embedded over `ℚ`
(floating-point values are binary rationals), so trial computations are
executable.  The closed-form theoretical bound uses `Real.log`, `Real.sqrt`
and `Real.exp`, hence lives in `ℝ`.
-/

namespace Histogram

/-- Constant `n_simulations = 10000` (number of training sets to generate). -/
def n_simulations : ℕ := 10000

/-- Constant `n_samples = 200` (size of each training set). -/
def n_samples : ℕ := 200

/-- Constant `delta = 0.05` (confidence parameter). -/
noncomputable def delta : ℝ := 0.05

/-- Constant `h = 1` (VC dimension). -/
def h : ℕ := 1

/-- Filter `positive_examples = S_x[S_x >= 0]`: the subsequence of non-negative
training points (line 23 of `histogram.py`). -/
def positive_examples (S : List ℚ) : List ℚ :=
  S.filter (fun x => decide (0 ≤ x))

/-- The ERM threshold `a`: `np.min(positive_examples)` when that subsequence
is non-empty, else the fallback `1.0` (lines 25–28 of `histogram.py`). -/
def erm_a (S : List ℚ) : ℚ :=
  match (positive_examples S).min? with
  | some a => a
  | none => 1

/-- Value `true_risk = a / 2.0` (line 32 of `histogram.py`). -/
def true_risk (S : List ℚ) : ℚ := erm_a S / 2

/-- Value `empirical_risk = 0.0` (line 35 of `histogram.py`). -/
def empirical_risk : ℚ := 0

/-- The risk gap appended for one trial: `true_risk - empirical_risk`
(line 38 of `histogram.py`). -/
def trialGap (S : List ℚ) : ℚ := true_risk S - empirical_risk

/-- The simulation loop (lines 16–38 of `histogram.py`): starting from the
empty list, each trial appends its risk gap.  The random draws are made
explicit as the list of training sets the loop consumes. -/
def risk_differences (sets : List (List ℚ)) : List ℚ :=
  sets.foldl (fun acc S => acc ++ [trialGap S]) []

/-- Specification of `List.min?` on a linear order: the returned element is a
member and a lower bound. -/
lemma min?_spec {l : List ℚ} {a : ℚ} (hmin : l.min? = some a) :
    a ∈ l ∧ ∀ b ∈ l, a ≤ b := by
  refine ⟨List.min?_mem (fun x y => min_choice x y) hmin, ?_⟩
  have hiff := List.le_min?_iff (fun x y z => le_min_iff) hmin (x := a)
  exact fun b hb => (hiff.1 (le_refl a)) b hb

/-- Membership in `positive_examples S` is membership in `S` plus
non-negativity. -/
lemma mem_positive_examples {S : List ℚ} {x : ℚ} :
    x ∈ positive_examples S ↔ x ∈ S ∧ 0 ≤ x := by
  simp [positive_examples]

/-- When some training point is non-negative, `a` is a non-negative member of
the training set and a lower bound on all its non-negative members. -/
lemma erm_a_spec {S : List ℚ} (hS : ∃ x ∈ S, 0 ≤ x) :
    erm_a S ∈ S ∧ 0 ≤ erm_a S ∧ ∀ x ∈ S, 0 ≤ x → erm_a S ≤ x := by
  obtain ⟨x, hxS, hx⟩ := hS
  have hxpos : x ∈ positive_examples S := mem_positive_examples.2 ⟨hxS, hx⟩
  have hne : positive_examples S ≠ [] := by
    intro hnil; rw [hnil] at hxpos; exact (List.not_mem_nil x) hxpos
  obtain ⟨a, ha⟩ : ∃ a, (positive_examples S).min? = some a := by
    cases hmin : (positive_examples S).min? with
    | none => exact absurd (List.min?_eq_none_iff.1 hmin) hne
    | some a => exact ⟨a, rfl⟩
  have hspec := min?_spec ha
  have haS : a ∈ S ∧ 0 ≤ a := mem_positive_examples.1 hspec.1
  have hval : erm_a S = a := by unfold erm_a; rw [ha]
  refine ⟨hval ▸ haS.1, hval ▸ haS.2, fun y hyS hy => ?_⟩
  rw [hval]
  exact hspec.2 y (mem_positive_examples.2 ⟨hyS, hy⟩)

/-- When every training point is negative, the filter is empty and `a`
falls back to `1`. -/
lemma erm_a_all_neg {S : List ℚ} (hS : ∀ x ∈ S, x < 0) : erm_a S = 1 := by
  have hnil : positive_examples S = [] := by
    apply List.filter_eq_nil_iff.2
    intro x hx
    simpa using not_le.2 (hS x hx)
  unfold erm_a
  rw [hnil]
  rfl

/-- The risk gap of a trial is always half the ERM threshold. -/
lemma trialGap_eq (S : List ℚ) : trialGap S = erm_a S / 2 := by
  simp [trialGap, true_risk, empirical_risk]

/-- C1: for every trial whose training set contains at least one non-negative
value, the ERM outcome `a` is the minimum of exactly the non-negative values
of the training set (a non-negative member of the set that bounds every
non-negative member from below), and the risk gap of the trial equals `a / 2`
(true risk `a/2` minus empirical risk `0`). -/
theorem erm_outcome_min_nonneg_and_gap (S : List ℚ) (hS : ∃ x ∈ S, 0 ≤ x) :
    erm_a S ∈ S ∧ 0 ≤ erm_a S ∧ (∀ x ∈ S, 0 ≤ x → erm_a S ≤ x) ∧
      trialGap S = erm_a S / 2 := by
  obtain ⟨hmem, hnn, hlb⟩ := erm_a_spec hS
  exact ⟨hmem, hnn, hlb, trialGap_eq S⟩

/-- Witness for C1 on the concrete training set `[1/2, -1/3, 3/4]`. -/
theorem erm_outcome_min_nonneg_and_gap_witness :
    erm_a [1/2, -1/3, 3/4] ∈ ([1/2, -1/3, 3/4] : List ℚ) ∧
      0 ≤ erm_a [1/2, -1/3, 3/4] ∧
      (∀ x ∈ ([1/2, -1/3, 3/4] : List ℚ), 0 ≤ x → erm_a [1/2, -1/3, 3/4] ≤ x) ∧
      trialGap [1/2, -1/3, 3/4] = erm_a [1/2, -1/3, 3/4] / 2 :=
  erm_outcome_min_nonneg_and_gap [1/2, -1/3, 3/4] ⟨1/2, by simp, by norm_num⟩

/-- C4: if every draw of the training set is negative, the ERM outcome falls
back to `a = 1` and the risk gap of the trial is exactly `1/2`; the degenerate
case yields a value, not an error. -/
theorem all_negative_fallback (S : List ℚ) (hS : ∀ x ∈ S, x < 0) :
    erm_a S = 1 ∧ trialGap S = 1/2 := by
  have ha := erm_a_all_neg hS
  refine ⟨ha, ?_⟩
  rw [trialGap_eq, ha]

/-- Witness for C4 on the concrete all-negative training set `[-1, -1/2]`. -/
theorem all_negative_fallback_witness :
    erm_a [-1, -1/2] = 1 ∧ trialGap [-1, -1/2] = 1/2 :=
  all_negative_fallback [-1, -1/2] (by intro x hx; fin_cases hx <;> norm_num)

/-- The ERM threshold is never negative: either it is the minimum of a list
of non-negative values, or the fallback `1`. -/
lemma erm_a_nonneg (S : List ℚ) : 0 ≤ erm_a S := by
  cases hmin : (positive_examples S).min? with
  | none =>
    unfold erm_a
    rw [hmin]
    norm_num
  | some a =>
    have hmem := (min?_spec hmin).1
    have := (mem_positive_examples.1 hmem).2
    unfold erm_a
    rw [hmin]
    exact this

/-- When every training point is at most `1`, the ERM threshold is at most
`1`: the minimum of the filtered list is one of the points, and the fallback
is `1` itself. -/
lemma erm_a_le_one {S : List ℚ} (hS : ∀ x ∈ S, x ≤ 1) : erm_a S ≤ 1 := by
  cases hmin : (positive_examples S).min? with
  | none =>
    unfold erm_a
    rw [hmin]
  | some a =>
    have hmem := (min?_spec hmin).1
    have haS := (mem_positive_examples.1 hmem).1
    unfold erm_a
    rw [hmin]
    exact hS a haS

/-- On the all-zero training set of `n_samples` draws the ERM threshold
is `0`. -/
lemma erm_a_replicate_zero : erm_a (List.replicate 200 (0 : ℚ)) = 0 := by
  have hfilter : positive_examples (List.replicate 200 (0 : ℚ)) =
      List.replicate 200 (0 : ℚ) := by
    apply List.filter_eq_self.2
    intro a ha
    have : a = 0 := List.eq_of_mem_replicate ha
    simp [this]
  have hmin : (positive_examples (List.replicate 200 (0 : ℚ))).min? = some 0 := by
    rw [hfilter]
    exact List.min?_replicate_of_pos (min_self 0) (by norm_num)
  unfold erm_a
  rw [hmin]

/-- C3 counterexample: the training set consisting of `n_samples = 200` draws
all equal to `0` lies inside `[-1, 1]`, yet its ERM outcome is `a = 0` and its
risk gap is `0`, refuting the claimed strict bounds `0 < a` and `0 < gap`. -/
theorem erm_strict_pos_counterexample :
    (∀ x ∈ List.replicate 200 (0 : ℚ), -1 ≤ x ∧ x ≤ 1) ∧
      (List.replicate 200 (0 : ℚ)).length = n_samples ∧
      erm_a (List.replicate 200 (0 : ℚ)) = 0 ∧
      trialGap (List.replicate 200 (0 : ℚ)) = 0 ∧
      ¬(0 < erm_a (List.replicate 200 (0 : ℚ))) := by
  have ha := erm_a_replicate_zero
  refine ⟨?_, by rw [List.length_replicate, n_samples], ha, ?_, ?_⟩
  · intro x hx
    have : x = 0 := List.eq_of_mem_replicate hx
    constructor <;> simp [this]
  · rw [trialGap_eq, ha]
    norm_num
  · rw [ha]
    norm_num

/-- C3 (amended): for every trial whose training set lies in `[-1, 1]`, the
ERM outcome satisfies `0 ≤ a ≤ 1` (equality `a = 0` is attainable, so the
lower bound is weak), and the risk gap satisfies `0 ≤ gap ≤ 1/2`. -/
theorem erm_range (S : List ℚ) (hS : ∀ x ∈ S, -1 ≤ x ∧ x ≤ 1) :
    0 ≤ erm_a S ∧ erm_a S ≤ 1 ∧ 0 ≤ trialGap S ∧ trialGap S ≤ 1/2 := by
  have h0 := erm_a_nonneg S
  have h1 := erm_a_le_one (fun x hx => (hS x hx).2)
  refine ⟨h0, h1, ?_, ?_⟩
  · rw [trialGap_eq]; linarith
  · rw [trialGap_eq]; linarith

/-- Witness for C3 (amended) on the concrete training set `[3/4, -1/4]`. -/
theorem erm_range_witness :
    0 ≤ erm_a [3/4, -1/4] ∧ erm_a [3/4, -1/4] ≤ 1 ∧
      0 ≤ trialGap [3/4, -1/4] ∧ trialGap [3/4, -1/4] ≤ 1/2 :=
  erm_range [3/4, -1/4] (by intro x hx; fin_cases hx <;> norm_num)

/-- C10: every risk gap lies in the closed interval `[0, 1/2]`; the endpoint
`0` is attained when the smallest non-negative draw is exactly `0`, and the
endpoint `1/2` is attained by the all-negative fallback. -/
theorem gap_range_and_attainment :
    (∀ S : List ℚ, (∀ x ∈ S, -1 ≤ x ∧ x ≤ 1) →
        0 ≤ trialGap S ∧ trialGap S ≤ 1/2) ∧
      trialGap [-1/2, 0, 1/3] = 0 ∧ trialGap [-3/4] = 1/2 := by
  refine ⟨?_,
    by norm_num [trialGap, true_risk, empirical_risk, erm_a, positive_examples,
      List.min?],
    by norm_num [trialGap, true_risk, empirical_risk, erm_a, positive_examples,
      List.min?]⟩
  intro S hS
  have h0 := erm_a_nonneg S
  have h1 := erm_a_le_one (fun x hx => (hS x hx).2)
  constructor
  · rw [trialGap_eq]; linarith
  · rw [trialGap_eq]; linarith

/-- Witness for C10: the universally quantified part applied to the concrete
training set `[1/5, -1]`. -/
theorem gap_range_and_attainment_witness :
    0 ≤ trialGap [1/5, -1] ∧ trialGap [1/5, -1] ≤ 1/2 :=
  gap_range_and_attainment.1 [1/5, -1] (by intro x hx; fin_cases hx <;> norm_num)

/-- Unfolding the simulation loop: folding with append from any accumulator
produces the accumulator followed by the mapped gaps. -/
lemma foldl_append_gap (sets : List (List ℚ)) :
    ∀ acc : List ℚ,
      sets.foldl (fun acc S => acc ++ [trialGap S]) acc = acc ++ sets.map trialGap := by
  induction sets with
  | nil => intro acc; simp
  | cons S rest ih =>
    intro acc
    simp [List.foldl_cons, ih]

/-- The simulation loop is the map of the per-trial gap over the training
sets. -/
lemma risk_differences_eq_map (sets : List (List ℚ)) :
    risk_differences sets = sets.map trialGap := by
  unfold risk_differences
  simpa using foldl_append_gap sets []

/-- C8: the simulator performs one trial per training set, appending exactly
one risk-gap value per trial; consuming `n_simulations` training sets yields
an ordered sequence of exactly `n_simulations` risk-gap values. -/
theorem simulation_trial_count (sets : List (List ℚ)) :
    (risk_differences sets).length = sets.length ∧
      (∀ S, risk_differences (sets ++ [S]) = risk_differences sets ++ [trialGap S]) ∧
      (sets.length = n_simulations → (risk_differences sets).length = n_simulations) := by
  have hmap := risk_differences_eq_map sets
  have hlen : (risk_differences sets).length = sets.length := by
    rw [hmap, List.length_map]
  refine ⟨hlen, fun S => ?_, fun hn => by rw [hlen, hn]⟩
  rw [risk_differences_eq_map, risk_differences_eq_map, List.map_append]
  simp

/-- Witness for C8: running the loop on a concrete batch of `n_simulations`
training sets produces `n_simulations` risk-gap values. -/
theorem simulation_trial_count_witness :
    (risk_differences (List.replicate n_simulations ([] : List ℚ))).length =
      n_simulations :=
  (simulation_trial_count (List.replicate n_simulations ([] : List ℚ))).2.2
    (by rw [List.length_replicate])

/-- Modelled from the spec: `np.percentile(risk_differences, 95)` (line 46 of
`histogram.py`) calls into NumPy, which is not part of this repository.  Its
default method is the linear-interpolation percentile the spec describes:
sort the values. -/
def sortedGaps (L : List ℚ) : List ℚ :=
  List.insertionSort (fun a b : ℚ => a ≤ b) L

/-- Modelled from the spec: the interpolation rank `0.95 * (N - 1)` of the
95th percentile. -/
def rank95 (L : List ℚ) : ℚ := 95 / 100 * ((L.length : ℚ) - 1)

/-- Modelled from the spec: the integer part of the interpolation rank. -/
def idx95 (L : List ℚ) : ℕ := ⌊rank95 L⌋₊

/-- Modelled from the spec: `np.percentile(risk_differences, 95)` with the
default linear interpolation — sort the values, then interpolate between the
entries on either side of rank `0.95 * (N - 1)`. -/
def percentile95 (L : List ℚ) : ℚ :=
  (sortedGaps L).getD (idx95 L) 0 +
    (rank95 L - (idx95 L : ℚ)) *
      ((sortedGaps L).getD (idx95 L + 1) ((sortedGaps L).getD (idx95 L) 0) -
        (sortedGaps L).getD (idx95 L) 0)

/-- In-range `getD` is `get`. -/
lemma getD_eq_get (l : List ℚ) (d : ℚ) {n : ℕ} (hn : n < l.length) :
    l.getD n d = l.get ⟨n, hn⟩ := by
  simp [List.getD_eq_getElem?_getD, List.getElem?_eq_getElem hn]

/-- Out-of-range `getD` is the default. -/
lemma getD_eq_d (l : List ℚ) (d : ℚ) {n : ℕ} (hn : l.length ≤ n) :
    l.getD n d = d := by
  simp [List.getD_eq_getElem?_getD, List.getElem?_eq_none hn]

/-- The sorted sequence is a permutation of the input. -/
lemma sortedGaps_perm (L : List ℚ) : List.Perm (sortedGaps L) L :=
  List.perm_insertionSort _ L

/-- The sorted sequence is sorted. -/
lemma sortedGaps_sorted (L : List ℚ) :
    List.Sorted (fun a b : ℚ => a ≤ b) (sortedGaps L) :=
  List.sorted_insertionSort _ L

/-- The sorted sequence has the length of the input. -/
lemma sortedGaps_length (L : List ℚ) : (sortedGaps L).length = L.length :=
  (sortedGaps_perm L).length_eq

/-- The interpolation rank is non-negative on non-empty input. -/
lemma rank95_nonneg {L : List ℚ} (hL : L ≠ []) : 0 ≤ rank95 L := by
  have hlen : 1 ≤ L.length := List.length_pos.2 hL
  have : (1 : ℚ) ≤ (L.length : ℚ) := by exact_mod_cast hlen
  unfold rank95
  nlinarith

/-- The integer part of the rank indexes into the sequence. -/
lemma idx95_lt_length {L : List ℚ} (hL : L ≠ []) : idx95 L < L.length := by
  have hlen : 1 ≤ L.length := List.length_pos.2 hL
  have hcast : (1 : ℚ) ≤ (L.length : ℚ) := by exact_mod_cast hlen
  have hr : rank95 L ≤ ((L.length - 1 : ℕ) : ℚ) := by
    have : ((L.length - 1 : ℕ) : ℚ) = (L.length : ℚ) - 1 := by
      push_cast [Nat.cast_sub hlen]
      ring
    rw [this]
    unfold rank95
    nlinarith
  have hfloor : idx95 L ≤ L.length - 1 := by
    have := Nat.floor_mono hr
    rwa [Nat.floor_natCast] at this
  omega

/-- The fractional part `rank - idx` lies in `[0, 1)`. -/
lemma rank95_frac {L : List ℚ} (hL : L ≠ []) :
    0 ≤ rank95 L - (idx95 L : ℚ) ∧ rank95 L - (idx95 L : ℚ) < 1 := by
  constructor
  · have := Nat.floor_le (rank95_nonneg hL)
    unfold idx95
    linarith
  · have := Nat.lt_floor_add_one (rank95 L)
    unfold idx95
    linarith

/-- Adjacent entries of a sorted sequence are ordered, with the `getD`
convention collapsing the out-of-range successor onto the entry itself. -/
lemma sorted_getD_adjacent {s : List ℚ}
    (hs : List.Sorted (fun a b : ℚ => a ≤ b) s) {i : ℕ} (hi : i < s.length) :
    s.getD i 0 ≤ s.getD (i + 1) (s.getD i 0) := by
  by_cases hi1 : i + 1 < s.length
  · rw [getD_eq_get s 0 hi, getD_eq_get s _ hi1]
    exact hs.rel_get_of_le (by simp)
  · rw [getD_eq_d s (s.getD i 0) (show s.length ≤ i + 1 by omega)]

/-- The 95th percentile lies between the two sorted entries it interpolates. -/
lemma percentile95_bracket {L : List ℚ} (hL : L ≠ []) :
    (sortedGaps L).getD (idx95 L) 0 ≤ percentile95 L ∧
      percentile95 L ≤
        (sortedGaps L).getD (idx95 L + 1) ((sortedGaps L).getD (idx95 L) 0) := by
  have hi : idx95 L < (sortedGaps L).length := by
    rw [sortedGaps_length]; exact idx95_lt_length hL
  have hadj := sorted_getD_adjacent (sortedGaps_sorted L) hi
  obtain ⟨hg0, hg1⟩ := rank95_frac hL
  unfold percentile95
  constructor
  · nlinarith
  · nlinarith

/-- In a sorted sequence whose entry at position `i` is at most `q`, at least
`i + 1` entries are at most `q`. -/
lemma countP_ge_of_sorted_get_le :
    ∀ (s : List ℚ), List.Sorted (fun a b : ℚ => a ≤ b) s →
      ∀ (i : ℕ) (hi : i < s.length) (q : ℚ), s.get ⟨i, hi⟩ ≤ q →
        i + 1 ≤ s.countP (fun x => decide (x ≤ q)) := by
  intro s
  induction s with
  | nil => intro _ i hi; simp at hi
  | cons x tl ih =>
    intro hs i hi q hle
    obtain ⟨hhead, htl⟩ := List.sorted_cons.1 hs
    cases i with
    | zero =>
      have hx : x ≤ q := by simpa using hle
      rw [List.countP_cons]
      simp [hx]
    | succ j =>
      have hj : j < tl.length := by simpa using hi
      have hget : tl.get ⟨j, hj⟩ ≤ q := by simpa using hle
      have hcount := ih htl j hj q hget
      have hx : x ≤ q := le_trans (hhead _ (tl.get_mem j hj)) hget
      rw [List.countP_cons, decide_eq_true hx]
      simp only [if_pos]
      omega

/-- C5: the empirical quantile is the linear-interpolation 95th percentile of
the risk-gap sequence: the values are sorted (a sorted permutation of the
input), the rank is `0.95 * (N - 1)`, the value interpolates between the two
sorted entries around that rank, and — the sense in which "approximately 95%
of the values are ≤ q" — at least `⌊0.95*(N-1)⌋ + 1` of the values are ≤ q. -/
theorem empirical_quantile_interp (L : List ℚ) (hL : L ≠ []) :
    rank95 L = 95 / 100 * ((L.length : ℚ) - 1) ∧
      List.Perm (sortedGaps L) L ∧
      List.Sorted (fun a b : ℚ => a ≤ b) (sortedGaps L) ∧
      (sortedGaps L).getD (idx95 L) 0 ≤ percentile95 L ∧
      percentile95 L ≤
        (sortedGaps L).getD (idx95 L + 1) ((sortedGaps L).getD (idx95 L) 0) ∧
      idx95 L + 1 ≤
        (L.filter (fun x => decide (x ≤ percentile95 L))).length := by
  obtain ⟨hlow, hhigh⟩ := percentile95_bracket hL
  refine ⟨rfl, sortedGaps_perm L, sortedGaps_sorted L, hlow, hhigh, ?_⟩
  have hi : idx95 L < (sortedGaps L).length := by
    rw [sortedGaps_length]; exact idx95_lt_length hL
  have hget : (sortedGaps L).get ⟨idx95 L, hi⟩ ≤ percentile95 L := by
    rw [← getD_eq_get (sortedGaps L) 0 hi]
    exact hlow
  have hcount := countP_ge_of_sorted_get_le (sortedGaps L) (sortedGaps_sorted L)
    (idx95 L) hi (percentile95 L) hget
  calc idx95 L + 1
      ≤ (sortedGaps L).countP (fun x => decide (x ≤ percentile95 L)) := hcount
    _ = L.countP (fun x => decide (x ≤ percentile95 L)) :=
        ((sortedGaps_perm L).countP_eq _)
    _ = (L.filter (fun x => decide (x ≤ percentile95 L))).length :=
        List.countP_eq_length_filter _ L

/-- Witness for C5 on the concrete risk-gap sequence `[1/10, 2/10, 3/10]`. -/
theorem empirical_quantile_interp_witness :
    rank95 [1/10, 2/10, 3/10] =
        95 / 100 * ((([1/10, 2/10, 3/10] : List ℚ).length : ℚ) - 1) ∧
      List.Perm (sortedGaps [1/10, 2/10, 3/10]) [1/10, 2/10, 3/10] ∧
      List.Sorted (fun a b : ℚ => a ≤ b) (sortedGaps [1/10, 2/10, 3/10]) ∧
      (sortedGaps [1/10, 2/10, 3/10]).getD (idx95 [1/10, 2/10, 3/10]) 0 ≤
        percentile95 [1/10, 2/10, 3/10] ∧
      percentile95 [1/10, 2/10, 3/10] ≤
        (sortedGaps [1/10, 2/10, 3/10]).getD (idx95 [1/10, 2/10, 3/10] + 1)
          ((sortedGaps [1/10, 2/10, 3/10]).getD (idx95 [1/10, 2/10, 3/10]) 0) ∧
      idx95 [1/10, 2/10, 3/10] + 1 ≤
        (([1/10, 2/10, 3/10] : List ℚ).filter
          (fun x => decide (x ≤ percentile95 [1/10, 2/10, 3/10]))).length :=
  empirical_quantile_interp [1/10, 2/10, 3/10] (by simp)

/-- Specification of `List.max?` on a linear order: the returned element is a
member and an upper bound. -/
lemma max?_spec {l : List ℚ} {a : ℚ} (hmax : l.max? = some a) :
    a ∈ l ∧ ∀ b ∈ l, b ≤ a := by
  refine ⟨List.max?_mem (fun x y => max_choice x y) hmax, ?_⟩
  have hiff := List.max?_le_iff (fun x y z => max_le_iff) hmax (x := a)
  exact fun b hb => (hiff.1 (le_refl a)) b hb

/-- Both interpolation endpoints of the percentile are members of the input
sequence. -/
lemma percentile95_endpoints_mem {L : List ℚ} (hL : L ≠ []) :
    (sortedGaps L).getD (idx95 L) 0 ∈ L ∧
      (sortedGaps L).getD (idx95 L + 1) ((sortedGaps L).getD (idx95 L) 0) ∈ L := by
  have hi : idx95 L < (sortedGaps L).length := by
    rw [sortedGaps_length]; exact idx95_lt_length hL
  have hmemi : (sortedGaps L).getD (idx95 L) 0 ∈ L := by
    rw [getD_eq_get (sortedGaps L) 0 hi]
    exact (sortedGaps_perm L).mem_iff.1 ((sortedGaps L).get_mem _ hi)
  refine ⟨hmemi, ?_⟩
  by_cases hi1 : idx95 L + 1 < (sortedGaps L).length
  · rw [getD_eq_get (sortedGaps L) _ hi1]
    exact (sortedGaps_perm L).mem_iff.1 ((sortedGaps L).get_mem _ hi1)
  · rw [getD_eq_d (sortedGaps L) _ (by omega)]
    exact hmemi

/-- C7 (amended): for a risk-gap sequence of length at least 2 that is not
degenerate, the empirical 95% quantile lies between the minimum of the sequence
and maximum, weakly at both ends (strictness fails in general; see the
counterexample). -/
theorem quantile_between_min_max (L : List ℚ) (h2 : 2 ≤ L.length)
    (hnd : ∃ x ∈ L, ∃ y ∈ L, x ≠ y) {m M : ℚ}
    (hm : L.min? = some m) (hM : L.max? = some M) :
    m ≤ percentile95 L ∧ percentile95 L ≤ M := by
  have hL : L ≠ [] := by
    intro hnil
    rw [hnil] at h2
    simp at h2
  obtain ⟨hlow, hhigh⟩ := percentile95_bracket hL
  obtain ⟨hmemi, hmemi1⟩ := percentile95_endpoints_mem hL
  constructor
  · exact le_trans ((min?_spec hm).2 _ hmemi) hlow
  · exact le_trans hhigh ((max?_spec hM).2 _ hmemi1)

/-- Witness for C7 (amended) on the concrete sequence `[0, 1/4, 1/2]`. -/
theorem quantile_between_min_max_witness :
    (0 : ℚ) ≤ percentile95 [0, 1/4, 1/2] ∧ percentile95 [0, 1/4, 1/2] ≤ 1/2 :=
  quantile_between_min_max [0, 1/4, 1/2] (by simp)
    ⟨0, by simp, 1/2, by simp, by norm_num⟩
    (by rw [List.min?_cons']; norm_num [List.foldl, min_def])
    (by rw [List.max?_cons']; norm_num [List.foldl, max_def])

/-- C7 counterexample: the sequence `[0, 1/2, 1/2]` has length `3 ≥ 2` and is
not degenerate, yet its empirical 95% quantile equals its maximum `1/2`
(rank `0.95 * 2 = 1.9` interpolates between the two tied top entries), so the
quantile does not lie strictly below the maximum. -/
theorem quantile_strictly_between_counterexample :
    2 ≤ ([0, 1/2, 1/2] : List ℚ).length ∧
      (∃ x ∈ ([0, 1/2, 1/2] : List ℚ), ∃ y ∈ ([0, 1/2, 1/2] : List ℚ), x ≠ y) ∧
      ([0, 1/2, 1/2] : List ℚ).max? = some (1/2) ∧
      percentile95 [0, 1/2, 1/2] = 1/2 ∧
      ¬(percentile95 [0, 1/2, 1/2] < 1/2) := by
  have hidx : idx95 [0, 1/2, 1/2] = 1 := by
    rw [idx95, Nat.floor_eq_iff (by norm_num [rank95])]
    norm_num [rank95]
  have hq : percentile95 [0, 1/2, 1/2] = 1/2 := by
    norm_num [percentile95, hidx, sortedGaps, rank95, List.insertionSort,
      List.orderedInsert, List.getD]
  refine ⟨by simp, ⟨0, by simp, 1/2, by simp, by norm_num⟩, ?_, hq, ?_⟩
  · rw [List.max?_cons']
    norm_num [List.foldl, max_def]
  · rw [hq]
    exact lt_irrefl _

/-- Value `term1 = h * np.log(n_samples)` (line 50 of `histogram.py`). -/
noncomputable def term1 : ℝ := (h : ℝ) * Real.log (n_samples : ℝ)

/-- Value `term2 = h * np.log(2 * np.e)` (line 51 of `histogram.py`). -/
noncomputable def term2 : ℝ := (h : ℝ) * Real.log (2 * Real.exp 1)

/-- Value `term3 = np.log(2 / delta)` (line 52 of `histogram.py`). -/
noncomputable def term3 : ℝ := Real.log (2 / delta)

/-- Value `complexity_term = term1 + term2 + term3` (line 57 of `histogram.py`). -/
noncomputable def complexity_term : ℝ := term1 + term2 + term3

/-- Value `bound_val = 2 * np.sqrt((2 / n_samples) * complexity_term)` (line 58 of
`histogram.py`). -/
noncomputable def bound_val : ℝ :=
  2 * Real.sqrt ((2 / (n_samples : ℝ)) * complexity_term)

/-- The bound computation as a function of the three governing parameters
(sample size, VC dimension, confidence), for stating that the computed
`bound_val` is a deterministic function of exactly these. -/
noncomputable def boundFormula (n hv d : ℝ) : ℝ :=
  2 * Real.sqrt ((2 / n) *
    (hv * Real.log n + hv * Real.log (2 * Real.exp 1) + Real.log (2 / d)))

/-- The analysis stage of the program: from the risk-gap data it produces the
empirical quantile and, independently of the data, the theoretical bound
(lines 44–58 of `histogram.py`). -/
noncomputable def analysisOutputs (gaps : List ℚ) : ℚ × ℝ :=
  (percentile95 gaps, bound_val)

/-- Numeric upper bound on `log 2`, from `2^10 = 1024 < e^7`. -/
lemma log_two_lt : Real.log 2 < 7/10 := by
  have hpow : Real.exp 7 = Real.exp 1 ^ (7 : ℕ) := by
    rw [← Real.exp_nat_mul]
    norm_num
  have hexp : (1024 : ℝ) < Real.exp 7 := by
    rw [hpow]
    calc (1024 : ℝ) < 2.7182818283 ^ (7 : ℕ) := by norm_num
      _ < Real.exp 1 ^ (7 : ℕ) :=
        pow_lt_pow_left₀ Real.exp_one_gt_d9 (by norm_num) (by norm_num)
  have hlog : Real.log 1024 < 7 :=
    (Real.log_lt_iff_lt_exp (by norm_num)).2 hexp
  have h1024 : (1024 : ℝ) = 2 ^ (10 : ℕ) := by norm_num
  rw [h1024, Real.log_pow] at hlog
  push_cast at hlog
  linarith

/-- Numeric lower bound on `log 2`, from `e^9 < 8192 = 2^13`. -/
lemma log_two_gt : 9/13 < Real.log 2 := by
  have hpow : Real.exp 9 = Real.exp 1 ^ (9 : ℕ) := by
    rw [← Real.exp_nat_mul]
    norm_num
  have hexp : Real.exp 9 < 8192 := by
    rw [hpow]
    calc Real.exp 1 ^ (9 : ℕ) < 2.7182818286 ^ (9 : ℕ) :=
        pow_lt_pow_left₀ Real.exp_one_lt_d9 (le_of_lt (Real.exp_pos 1)) (by norm_num)
      _ < 8192 := by norm_num
  have hlog : (9 : ℝ) < Real.log 8192 :=
    (Real.lt_log_iff_exp_lt (by norm_num)).2 hexp
  have h8192 : (8192 : ℝ) = 2 ^ (13 : ℕ) := by norm_num
  rw [h8192, Real.log_pow] at hlog
  push_cast at hlog
  linarith

/-- Upper bound on `log 5` against `log 2`, from `5^40 < 2^93`. -/
lemma log_five_lt : Real.log 5 < 93/40 * Real.log 2 := by
  have hpow : (5 : ℝ) ^ (40 : ℕ) < 2 ^ (93 : ℕ) := by norm_num
  have hlog := Real.log_lt_log (by positivity) hpow
  rw [Real.log_pow, Real.log_pow] at hlog
  push_cast at hlog
  linarith

/-- Lower bound on `log 5` against `log 2`, from `2^58 < 5^25`. -/
lemma log_five_gt : 58/25 * Real.log 2 < Real.log 5 := by
  have hpow : (2 : ℝ) ^ (58 : ℕ) < 5 ^ (25 : ℕ) := by norm_num
  have hlog := Real.log_lt_log (by positivity) hpow
  rw [Real.log_pow, Real.log_pow] at hlog
  push_cast at hlog
  linarith

/-- The complexity term decomposes over the prime factorisations
`200 = 2^3 * 5^2` and `2/delta = 40 = 2^3 * 5`, with `log(2e) = log 2 + 1`. -/
lemma complexity_term_eq :
    complexity_term = 7 * Real.log 2 + 3 * Real.log 5 + 1 := by
  have h200 : Real.log ((n_samples : ℕ) : ℝ) = 3 * Real.log 2 + 2 * Real.log 5 := by
    have hn : ((n_samples : ℕ) : ℝ) = 2 ^ (3 : ℕ) * 5 ^ (2 : ℕ) := by
      norm_num [n_samples]
    rw [hn, Real.log_mul (by positivity) (by positivity), Real.log_pow,
      Real.log_pow]
    push_cast
    ring
  have h2e : Real.log (2 * Real.exp 1) = Real.log 2 + 1 := by
    rw [Real.log_mul (by norm_num) (Real.exp_ne_zero 1), Real.log_exp]
  have h40 : Real.log (2 / delta) = 3 * Real.log 2 + Real.log 5 := by
    have hd : (2 : ℝ) / delta = 2 ^ (3 : ℕ) * 5 := by
      norm_num [delta]
    rw [hd, Real.log_mul (by positivity) (by norm_num), Real.log_pow]
    push_cast
    ring
  unfold complexity_term term1 term2 term3
  rw [h200, h2e, h40]
  norm_num [h]
  ring

/-- Rational bracketing of the complexity term:
`10.5625 < complexity_term < 10.89`. -/
lemma complexity_term_bounds :
    169/16 < complexity_term ∧ complexity_term < 1089/100 := by
  have hl2u := log_two_lt
  have hl2l := log_two_gt
  have hl5u : Real.log 5 < 93/40 * (7/10) := by
    have := log_five_lt
    have hmul : 93/40 * Real.log 2 < 93/40 * (7/10) := by
      have : (0 : ℝ) < 93/40 := by norm_num
      nlinarith
    linarith
  have hl5l : 58/25 * (9/13) < Real.log 5 := by
    have := log_five_gt
    have hmul : 58/25 * (9/13) < 58/25 * Real.log 2 := by
      have : (0 : ℝ) < 58/25 := by norm_num
      nlinarith
    linarith
  rw [complexity_term_eq]
  constructor <;> nlinarith

/-- Upper numeric bound on the theoretical bound of the program: below `0.66`. -/
lemma bound_val_lt : bound_val < 33/50 := by
  have hcast : ((n_samples : ℕ) : ℝ) = 200 := by norm_num [n_samples]
  have hc := complexity_term_bounds
  have harg : (2 / (n_samples : ℝ)) * complexity_term < (33/100) ^ 2 := by
    rw [hcast]
    nlinarith [hc.2]
  have hsqrt : Real.sqrt ((2 / (n_samples : ℝ)) * complexity_term) < 33/100 :=
    (Real.sqrt_lt' (by norm_num)).2 harg
  unfold bound_val
  linarith

/-- Lower numeric bound on the theoretical bound of the program: above `0.65`. -/
lemma bound_val_gt : 13/20 < bound_val := by
  have hcast : ((n_samples : ℕ) : ℝ) = 200 := by norm_num [n_samples]
  have hc := complexity_term_bounds
  have harg : (13/40 : ℝ) ^ 2 < (2 / (n_samples : ℝ)) * complexity_term := by
    rw [hcast]
    nlinarith [hc.1]
  have hsqrt : (13/40 : ℝ) < Real.sqrt ((2 / (n_samples : ℝ)) * complexity_term) :=
    (Real.lt_sqrt (by norm_num)).2 harg
  unfold bound_val
  linarith

/-- C2 counterexample: the theoretical bound of the program is more than `1/4` away
from the claimed value `0.9244`; the formula
`2*sqrt((2/200)*(ln 200 + ln 2e + ln 40))` actually evaluates near `0.6536`
(the arithmetic walkthrough in the spec doubled the `2/n` factor a second time). -/
theorem bound_value_counterexample : 1/4 < |bound_val - 9244/10000| := by
  have hlt := bound_val_lt
  have hgt := bound_val_gt
  have hneg : bound_val - 9244/10000 < 0 := by linarith
  rw [abs_of_neg hneg]
  linarith

/-- C2 (amended): the theoretical bound equals
`2*sqrt((2/n_samples)*(h*ln(n_samples) + h*ln(2e) + ln(2/delta)))`, and for
`n_samples = 200`, `h = 1`, `delta = 0.05` it evaluates to `≈ 0.6536`
(strictly between `0.65` and `0.66`), not `0.9244`. -/
theorem bound_formula_and_value :
    bound_val =
      2 * Real.sqrt ((2 / 200) *
        (1 * Real.log 200 + 1 * Real.log (2 * Real.exp 1) +
          Real.log (2 / 0.05))) ∧
      13/20 < bound_val ∧ bound_val < 33/50 := by
  refine ⟨?_, bound_val_gt, bound_val_lt⟩
  unfold bound_val complexity_term term1 term2 term3
  norm_num [n_samples, h, delta]

/-- C6: the theoretical bound produced by the analysis stage is a
deterministic function of `(n_samples, h, delta)` alone: for any two runs,
whatever risk-gap data the simulation produced, the bound outputs coincide,
and each equals the closed-form function of the three parameters. -/
theorem bound_deterministic (gaps₁ gaps₂ : List ℚ) :
    (analysisOutputs gaps₁).2 = (analysisOutputs gaps₂).2 ∧
      (analysisOutputs gaps₁).2 = boundFormula (n_samples : ℝ) (h : ℝ) delta := by
  refine ⟨rfl, ?_⟩
  show bound_val = _
  unfold bound_val boundFormula complexity_term term1 term2 term3
  rfl

/-- The separator line `"-" * 30` (lines 60 and 63 of `histogram.py`). -/
def separator : String := String.mk (List.replicate 30 '-')

/-- The progress announcement
`f"Running {n_simulations} simulations..."` (line 14 of `histogram.py`). -/
def progressLine : String :=
  "Running " ++ toString n_simulations ++ " simulations..."

/-- The fractional block of a `%.5f` rendering: the last five decimal digits
of the scaled value, zero-padded to width 5. -/
def fracDigits5 (f : ℕ) : List Char :=
  List.replicate (5 - (Nat.digits 10 f).length) '0' ++
    ((Nat.digits 10 f).reverse.map Nat.digitChar)

/-- Rendering in `%.5f` style of a non-negative value already scaled and rounded to an
integer count of `10^-5` units. -/
def fmt5core (n : ℕ) : String :=
  toString (n / 100000) ++ "." ++ String.mk (fracDigits5 (n % 100000))

/-- Model of the Python format specifier `:.5f`: round the value to five
decimal places and render with an integer part, a point, and exactly five
fractional digits (sign first when negative). -/
def fmt5 (x : ℚ) : String :=
  if round (x * 100000) < 0 then "-" ++ fmt5core (-round (x * 100000)).toNat
  else fmt5core (round (x * 100000)).toNat

/-- The five lines the program prints (lines 14 and 60–63 of
`histogram.py`), as a function of the two reported values. -/
def stdoutLines (q b : ℚ) : List String :=
  [progressLine,
    separator,
    "Empirical 95% Quantile: " ++ fmt5 q,
    "Theoretical PAC Bound:  " ++ fmt5 b,
    separator]

/-- A number below `10^5` has at most five digits. -/
lemma digits_len_le {f : ℕ} (hf : f < 100000) : (Nat.digits 10 f).length ≤ 5 := by
  by_cases hf0 : f = 0
  · simp [hf0]
  · have hlog : Nat.log 10 f < 5 :=
      Nat.log_lt_of_lt_pow hf0 (by norm_num at hf ⊢; exact hf)
    rw [Nat.digits_len 10 f (by norm_num) hf0]
    omega

/-- The fractional block always holds exactly five characters. -/
lemma fracDigits5_length {f : ℕ} (hf : f < 100000) :
    (fracDigits5 f).length = 5 := by
  have hlen := digits_len_le hf
  simp only [fracDigits5, List.length_append, List.length_replicate,
    List.length_map, List.length_reverse]
  omega

/-- Every `%.5f` rendering is some prefix text, a decimal point, and exactly
five fractional digit characters. -/
lemma fmt5_shape (x : ℚ) :
    ∃ (pre : String) (ds : List Char), ds.length = 5 ∧
      fmt5 x = pre ++ "." ++ String.mk ds := by
  have hcore : ∀ n : ℕ, ∃ ds : List Char, ds.length = 5 ∧
      fmt5core n = toString (n / 100000) ++ "." ++ String.mk ds :=
    fun n => ⟨fracDigits5 (n % 100000),
      fracDigits5_length (Nat.mod_lt _ (by norm_num)), rfl⟩
  unfold fmt5
  by_cases hneg : round (x * 100000) < 0
  · rw [if_pos hneg]
    obtain ⟨ds, hds, heq⟩ := hcore (-round (x * 100000)).toNat
    refine ⟨"-" ++ toString ((-round (x * 100000)).toNat / 100000), ds, hds, ?_⟩
    rw [heq]
    simp [String.append_assoc]
  · rw [if_neg hneg]
    obtain ⟨ds, hds, heq⟩ := hcore (round (x * 100000)).toNat
    exact ⟨toString ((round (x * 100000)).toNat / 100000), ds, hds, heq⟩

/-- C9: the standard output of the program is five lines — the progress
announcement, a 30-dash separator, the empirical-quantile line, the
theoretical-bound line (note the two spaces after the colon), and another
separator — with both reported values rendered to exactly five decimal
places. -/
theorem stdout_format (q b : ℚ) :
    (stdoutLines q b).length = 5 ∧
      stdoutLines q b =
        ["Running 10000 simulations...",
          separator,
          "Empirical 95% Quantile: " ++ fmt5 q,
          "Theoretical PAC Bound:  " ++ fmt5 b,
          separator] ∧
      separator = String.mk (List.replicate 30 '-') ∧
      (∃ (pre : String) (ds : List Char), ds.length = 5 ∧
        fmt5 q = pre ++ "." ++ String.mk ds) ∧
      (∃ (pre : String) (ds : List Char), ds.length = 5 ∧
        fmt5 b = pre ++ "." ++ String.mk ds) := by
  have hprog : progressLine = "Running 10000 simulations..." := rfl
  exact ⟨rfl, by rw [stdoutLines, hprog], rfl, fmt5_shape q, fmt5_shape b⟩

/-- Witness for C6 on two concrete, distinct risk-gap data sets. -/
theorem bound_deterministic_witness :
    (analysisOutputs [0]).2 = (analysisOutputs [1/2]).2 ∧
      (analysisOutputs [0]).2 = boundFormula (n_samples : ℝ) (h : ℝ) delta :=
  bound_deterministic [0] [1/2]

/-- Witness for C9 at the concrete reported values `q = 0`, `b = 1/2`. -/
theorem stdout_format_witness :
    (stdoutLines 0 (1/2)).length = 5 ∧
      stdoutLines 0 (1/2) =
        ["Running 10000 simulations...",
          separator,
          "Empirical 95% Quantile: " ++ fmt5 0,
          "Theoretical PAC Bound:  " ++ fmt5 (1/2),
          separator] ∧
      separator = String.mk (List.replicate 30 '-') ∧
      (∃ (pre : String) (ds : List Char), ds.length = 5 ∧
        fmt5 0 = pre ++ "." ++ String.mk ds) ∧
      (∃ (pre : String) (ds : List Char), ds.length = 5 ∧
        fmt5 (1/2) = pre ++ "." ++ String.mk ds) :=
  stdout_format 0 (1/2)

end Histogram
